import Mathlib

/-!
Verification development for the myADS citation tracker.

The repository ships only documentation (README files, a pyproject manifest
and a tutorial notebook); the core reconciliation, matching and metrics code
described by the specification is not present under `src/`.  Every definition
below is therefore a shallow embedding modelled from the specification's
component contracts (spec.md sections 3, 4.1-4.4 and 6) and, where the two
differ, from the repository README under `src/`, which documents the shipped
behaviour.  Definitions are kept executable so that each theorem can be
exercised on concrete inputs.
-/

namespace MyADS

/-- Modelled from the spec: section 3, a tracked author — stable local
identifier, given/family name, optional ORCID. -/
structure AuthorT where
  authorId : Nat
  firstName : String
  lastName : String
  orcid : Option String
deriving DecidableEq

/-- Modelled from the spec: section 6, one entry of a remote record's
author-list: a name string plus an optional ORCID annotation. -/
structure ByLineEntry where
  name : String
  orcid : Option String
deriving DecidableEq

/-- Modelled from the spec: section 6, a normalized remote bibliographic
record `{remote_id, title, author_list, pub_date, citation_count}`. -/
structure RemoteRecord where
  remoteId : String
  title : String
  authorList : List ByLineEntry
  pubDate : Nat
  citationCount : Nat
deriving DecidableEq

/-- Modelled from the spec: section 4.1, the Author Matcher's classification
of a remote record for a tracked author. -/
inductive MatchClass where
  | strongMatch
  | candidate
  | noMatch
deriving DecidableEq

/-- ASCII lower-casing of one character. -/
def lowerChar (c : Char) : Char :=
  if 65 ≤ c.toNat ∧ c.toNat ≤ 90 then Char.ofNat (c.toNat + 32) else c

/-- Separator characters of a byline name string: comma, blank and dot. -/
def isSep (c : Char) : Bool :=
  c = ',' || c = ' ' || c = '.'

/-- Splits a character list into non-empty runs between separators. -/
def splitToks : List Char → List Char → List (List Char)
  | [], acc => if acc.isEmpty then [] else [acc.reverse]
  | c :: cs, acc =>
    if isSep c then
      if acc.isEmpty then splitToks cs [] else acc.reverse :: splitToks cs []
    else splitToks cs (c :: acc)

/-- Lower-cased word tokens of a byline name string. -/
def nameTokens (s : String) : List (List Char) :=
  splitToks (s.toList.map lowerChar) []

/-- Modelled from the spec: section 4.1's name heuristic — case-insensitive
token match on the family name together with the first name or its initial. -/
def tokenMatch (a : AuthorT) (entryName : String) : Bool :=
  let toks := nameTokens entryName
  let fam := a.lastName.toList.map lowerChar
  let giv := a.firstName.toList.map lowerChar
  toks.contains fam && toks.any fun t => t == giv || t == giv.take 1

/-- Index of the first element of a list satisfying a Boolean predicate. -/
def firstIdx (p : α → Bool) : List α → Option Nat
  | [] => none
  | x :: xs => if p x then some 0 else (firstIdx p xs).map (· + 1)

/-- Index of the first byline entry annotated with the author's ORCID, when
the author has one. -/
def orcidHit (a : AuthorT) (r : RemoteRecord) : Option Nat :=
  match a.orcid with
  | some o => firstIdx (fun e => e.orcid = some o) r.authorList
  | none => none

/-- Whether the first-listed byline entry token-matches the author. -/
def firstHit (a : AuthorT) (r : RemoteRecord) : Bool :=
  match r.authorList.head? with
  | some e => tokenMatch a e.name
  | none => false

/-- Modelled from the spec: section 4.1, the Author Matcher.  ORCID equality
dominates; otherwise a token match on the first-listed author is strong;
otherwise a token match elsewhere in the byline is a candidate in deep mode;
otherwise no match.  Returns the classification with the 1-based position. -/
def matchAuthor (a : AuthorT) (deep : Bool) (r : RemoteRecord) :
    MatchClass × Option Nat :=
  match orcidHit a r with
  | some i => (MatchClass.strongMatch, some (i + 1))
  | none =>
    if firstHit a r then
      (MatchClass.strongMatch, some 1)
    else
      match firstIdx (fun e => tokenMatch a e.name) r.authorList with
      | some j => if deep then (MatchClass.candidate, some (j + 1))
                  else (MatchClass.noMatch, none)
      | none => (MatchClass.noMatch, none)

theorem firstIdx_eq_none_iff (p : α → Bool) (l : List α) :
    firstIdx p l = none ↔ ∀ x ∈ l, p x = false := by
  induction l with
  | nil => simp [firstIdx]
  | cons x xs ih =>
    by_cases hx : p x
    · simp [firstIdx, hx]
    · simp only [firstIdx, if_neg hx, Option.map_eq_none', ih, List.mem_cons]
      constructor
      · rintro h y (rfl | hy)
        · exact Bool.eq_false_iff.mpr hx
        · exact h y hy
      · intro h y hy
        exact h y (Or.inr hy)

theorem firstIdx_any (p : α → Bool) (l : List α) :
    (firstIdx p l).isSome = l.any p := by
  induction l with
  | nil => simp [firstIdx]
  | cons x xs ih =>
    by_cases hx : p x
    · simp [firstIdx, hx]
    · simp [firstIdx, hx, ih]

/-- C5: ORCID dominance — when the tracked author has an ORCID and the remote
record's byline carries an entry annotated with that very ORCID (first such
entry at index `i`), the Author Matcher classifies the record as a strong
match at position `i + 1`, for every name formatting and in every mode. -/
theorem matchAuthor_orcid_dominance (a : AuthorT) (deep : Bool)
    (r : RemoteRecord) (o : String) (i : Nat)
    (ho : a.orcid = some o)
    (hi : firstIdx (fun e => e.orcid = some o) r.authorList = some i) :
    matchAuthor a deep r = (MatchClass.strongMatch, some (i + 1)) := by
  have horc : orcidHit a r = some i := by
    unfold orcidHit
    rw [ho]
    exact hi
  unfold matchAuthor
  rw [horc]

/-- C5 witness: a concrete author and record exercising the ORCID rule. -/
theorem matchAuthor_orcid_dominance_witness :
    matchAuthor ⟨1, "Jane", "Doe", some "0000-0002-1825-0097"⟩ false
      ⟨"2020X", "T",
        [⟨"Smith, A.", none⟩, ⟨"DOE J", some "0000-0002-1825-0097"⟩], 0, 5⟩
      = (MatchClass.strongMatch, some 2) :=
  matchAuthor_orcid_dominance _ false _ "0000-0002-1825-0097" 1 rfl (by decide)

/-- C6: without an ORCID hit and without a first-author token match, the
matcher never answers strong match: it answers candidate exactly when deep
mode is active and the author's name token-matches somewhere in the byline,
and no match otherwise. -/
theorem matchAuthor_no_strong_without_orcid_or_first (a : AuthorT)
    (deep : Bool) (r : RemoteRecord)
    (hno : ∀ e ∈ r.authorList, ∀ o, a.orcid = some o → e.orcid ≠ some o)
    (hfst : ∀ e, r.authorList.head? = some e → tokenMatch a e.name = false) :
    (matchAuthor a deep r).1 ≠ MatchClass.strongMatch ∧
      (matchAuthor a deep r).1 =
        (if deep && r.authorList.any (fun e => tokenMatch a e.name) then
          MatchClass.candidate else MatchClass.noMatch) := by
  have horc : orcidHit a r = none := by
    unfold orcidHit
    cases ha : a.orcid with
    | none => rfl
    | some o =>
      simp only []
      rw [firstIdx_eq_none_iff]
      intro e he
      exact decide_eq_false (hno e he o ha)
  have hhead : firstHit a r = false := by
    unfold firstHit
    cases hh : r.authorList.head? with
    | none => rfl
    | some e => exact hfst e hh
  unfold matchAuthor
  rw [horc]
  simp only [hhead, Bool.false_eq_true, if_false]
  cases hf : firstIdx (fun e => tokenMatch a e.name) r.authorList with
  | none =>
    have : r.authorList.any (fun e => tokenMatch a e.name) = false := by
      rw [← firstIdx_any, hf]; rfl
    simp [this]
  | some j =>
    have : r.authorList.any (fun e => tokenMatch a e.name) = true := by
      rw [← firstIdx_any, hf]; rfl
    cases deep with
    | true => simp [this]
    | false => simp [this]

/-- C6 witness: a co-authored record with no ORCID annotation, checked in
both deep and shallow mode via the theorem. -/
theorem matchAuthor_no_strong_witness :
    (matchAuthor ⟨1, "Jane", "Doe", none⟩ true
        ⟨"2020X", "T", [⟨"Smith, A.", none⟩, ⟨"Doe, Jane", none⟩], 0, 5⟩).1 =
      MatchClass.candidate := by
  have h := matchAuthor_no_strong_without_orcid_or_first
    ⟨1, "Jane", "Doe", none⟩ true
    ⟨"2020X", "T", [⟨"Smith, A.", none⟩, ⟨"Doe, Jane", none⟩], 0, 5⟩
    (by intro e he o ho; cases ho) (by decide)
  rw [h.2]
  decide

/-- Modelled from the spec: section 3, a Publication stored for an author —
remote identifier, title, byline position, embedded citation counter, ignore
flag and the tombstoned (removed) state reached only through explicit
removal confirmation. -/
structure Publication where
  remoteId : String
  title : String
  position : Nat
  citationCount : Nat
  ignored : Bool
  tombstoned : Bool
deriving DecidableEq

/-- Modelled from the spec: section 4.3, one matched remote record handed to
the Reconciliation Engine (a strong match or an accepted candidate), carrying
the position inferred by the Author Matcher. -/
structure MatchedRecord where
  remoteId : String
  title : String
  position : Nat
  citationCount : Nat
deriving DecidableEq

/-- Modelled from the spec: section 4.3 rule 3, one "updated" report entry:
the exact (possibly negative) citation delta, flagged distinctly when the
count decreased upstream. -/
structure UpdatedEntry where
  remoteId : String
  delta : Int
  negative : Bool
deriving DecidableEq

/-- Modelled from the spec: section 4.3, the change report produced by one
reconciliation pass: identifiers added, update entries, and identifiers of
publications surfaced as missing (candidates for removal, never removed
automatically). -/
structure ChangeReport where
  added : List String
  updated : List UpdatedEntry
  missing : List String
deriving DecidableEq

/-- The matched record of the current pass carrying a given remote
identifier, if any. -/
def findRec (ms : List MatchedRecord) (id : String) : Option MatchedRecord :=
  ms.find? fun m => m.remoteId == id

/-- Modelled from the spec: section 4.3 rule 3 — an existing publication's
stored citation total is overwritten by the remote total whenever the two
differ (never clamped, also on a decrease). -/
def syncPub (ms : List MatchedRecord) (p : Publication) : Publication :=
  match findRec ms p.remoteId with
  | some m =>
    if m.citationCount = p.citationCount then p
    else { p with citationCount := m.citationCount }
  | none => p

/-- Modelled from the spec: section 4.3 rule 3 — the "updated" report entry
for an existing publication, present exactly when the totals differ, with
the exact signed delta and the distinct negative flag. -/
def updateEntry (ms : List MatchedRecord) (p : Publication) :
    Option UpdatedEntry :=
  match findRec ms p.remoteId with
  | some m =>
    if m.citationCount = p.citationCount then none
    else some ⟨p.remoteId, (m.citationCount : Int) - (p.citationCount : Int),
      decide (m.citationCount < p.citationCount)⟩
  | none => none

/-- Modelled from the spec: section 4.3 rule 4 — a live (neither ignored nor
tombstoned) publication is missing when its remote identifier is absent from
the current pass's matched-record set. -/
def isMissing (ms : List MatchedRecord) (p : Publication) : Bool :=
  !p.ignored && !p.tombstoned && (findRec ms p.remoteId).isNone

/-- Modelled from the spec: section 4.3 rule 2 — a fresh Publication seeded
from a matched remote record. -/
def mkPub (m : MatchedRecord) : Publication :=
  ⟨m.remoteId, m.title, m.position, m.citationCount, false, false⟩

/-- Modelled from the spec: section 4.3 rule 1 — the matched records with no
existing Publication, to be created and reported as added. -/
def newRecs (pubs : List Publication) (ms : List MatchedRecord) :
    List MatchedRecord :=
  ms.filter fun m => !((pubs.map (·.remoteId)).contains m.remoteId)

/-- Modelled from the spec: section 4.3, the Reconciliation Engine — given
the author's current publications and the pass's matched records, produce
the change report and the updated snapshot.  Missing publications are only
surfaced, never deleted or tombstoned here. -/
def reconcile (pubs : List Publication) (ms : List MatchedRecord) :
    ChangeReport × List Publication :=
  (⟨(newRecs pubs ms).map (·.remoteId),
    pubs.filterMap (updateEntry ms),
    (pubs.filter (isMissing ms)).map (·.remoteId)⟩,
    pubs.map (syncPub ms) ++ (newRecs pubs ms).map mkPub)

/-- Modelled from the spec: section 4.3 rule 4's explicit per-record removal
confirmation — accepting removal of a surfaced-missing publication
tombstones it; declining leaves it untouched. -/
def confirmRemovals (pubs : List Publication) (missing : List String)
    (dec : String → Bool) : List Publication :=
  pubs.map fun p =>
    if missing.contains p.remoteId && dec p.remoteId then
      { p with tombstoned := true }
    else p

theorem syncPub_remoteId (ms : List MatchedRecord) (p : Publication) :
    (syncPub ms p).remoteId = p.remoteId := by
  unfold syncPub
  cases findRec ms p.remoteId with
  | none => rfl
  | some m =>
    by_cases h : m.citationCount = p.citationCount <;> simp [h]

theorem syncPub_flags (ms : List MatchedRecord) (p : Publication) :
    (syncPub ms p).ignored = p.ignored ∧
      (syncPub ms p).tombstoned = p.tombstoned := by
  unfold syncPub
  cases findRec ms p.remoteId with
  | none => exact ⟨rfl, rfl⟩
  | some m =>
    by_cases h : m.citationCount = p.citationCount <;> simp [h]

theorem isMissing_syncPub (ms : List MatchedRecord) (p : Publication) :
    isMissing ms (syncPub ms p) = isMissing ms p := by
  unfold isMissing
  rw [syncPub_remoteId, (syncPub_flags ms p).1, (syncPub_flags ms p).2]

theorem findRec_eq_none (ms : List MatchedRecord) (id : String)
    (h : ∀ m ∈ ms, m.remoteId ≠ id) : findRec ms id = none := by
  unfold findRec
  rw [List.find?_eq_none]
  intro m hm
  simp [beq_eq_false_iff_ne.mpr (h m hm)]

theorem findRec_self (ms : List MatchedRecord) (m : MatchedRecord)
    (hm : m ∈ ms) (hnd : (ms.map (·.remoteId)).Nodup) :
    findRec ms m.remoteId = some m := by
  induction ms with
  | nil => cases hm
  | cons x xs ih =>
    rw [List.map_cons, List.nodup_cons] at hnd
    rcases List.mem_cons.mp hm with rfl | hm'
    · unfold findRec
      exact List.find?_cons_of_pos _ (by simp)
    · have hne : x.remoteId ≠ m.remoteId := by
        intro h
        exact hnd.1 (h ▸ List.mem_map_of_mem (·.remoteId) hm')
      unfold findRec
      rw [List.find?_cons_of_neg _ (by simp [hne]), ← findRec]
      exact ih hm' hnd.2

theorem syncPub_of_absent (ms : List MatchedRecord) (p : Publication)
    (h : findRec ms p.remoteId = none) : syncPub ms p = p := by
  unfold syncPub
  rw [h]

theorem mem_missing_of_absent (pubs : List Publication)
    (ms : List MatchedRecord) (p : Publication)
    (hp : p ∈ pubs) (hig : p.ignored = false) (hts : p.tombstoned = false)
    (hfind : findRec ms p.remoteId = none) :
    p.remoteId ∈ (reconcile pubs ms).1.missing := by
  have hmiss : isMissing ms p = true := by
    unfold isMissing
    rw [hig, hts, hfind]
    rfl
  unfold reconcile
  simp only []
  exact List.mem_map_of_mem (·.remoteId) (List.mem_filter.mpr ⟨hp, hmiss⟩)

/-- C2: a live, non-ignored publication whose remote identifier is absent
from the pass's matched-record set is listed in the missing report, stays in
the snapshot untouched (not deleted, not tombstoned), survives a declined
removal confirmation unchanged, and is still present in the snapshot of the
next pass. -/
theorem reconcile_missing_surfaced (pubs : List Publication)
    (ms : List MatchedRecord) (p : Publication)
    (hp : p ∈ pubs) (hig : p.ignored = false) (hts : p.tombstoned = false)
    (habs : ∀ m ∈ ms, m.remoteId ≠ p.remoteId) :
    p.remoteId ∈ (reconcile pubs ms).1.missing ∧
      p ∈ (reconcile pubs ms).2 ∧
      confirmRemovals (reconcile pubs ms).2 (reconcile pubs ms).1.missing
          (fun _ => false) = (reconcile pubs ms).2 ∧
      p ∈ (reconcile
            (confirmRemovals (reconcile pubs ms).2
              (reconcile pubs ms).1.missing (fun _ => false)) ms).2 := by
  have hfind : findRec ms p.remoteId = none := findRec_eq_none ms _ habs
  have hmiss : isMissing ms p = true := by
    unfold isMissing
    rw [hig, hts, hfind]
    rfl
  have hsync : syncPub ms p = p := syncPub_of_absent ms p hfind
  have hmem1 : p.remoteId ∈ (reconcile pubs ms).1.missing :=
    mem_missing_of_absent pubs ms p hp hig hts hfind
  have hmem2 : p ∈ (reconcile pubs ms).2 := by
    unfold reconcile
    simp only []
    exact List.mem_append_left _ (hsync ▸ List.mem_map_of_mem (syncPub ms) hp)
  have hconf : confirmRemovals (reconcile pubs ms).2
      (reconcile pubs ms).1.missing (fun _ => false) = (reconcile pubs ms).2 := by
    unfold confirmRemovals
    simp
  refine ⟨hmem1, hmem2, hconf, ?_⟩
  rw [hconf]
  unfold reconcile
  simp only []
  exact List.mem_append_left _ (hsync ▸ List.mem_map_of_mem (syncPub ms) hmem2)

/-- C2 witness: one stored live publication against an empty matched set. -/
theorem reconcile_missing_surfaced_witness :
    (⟨"X", "T", 1, 3, false, false⟩ : Publication).remoteId ∈
      (reconcile [⟨"X", "T", 1, 3, false, false⟩] []).1.missing :=
  (reconcile_missing_surfaced [⟨"X", "T", 1, 3, false, false⟩] []
    ⟨"X", "T", 1, 3, false, false⟩ (by simp) rfl rfl (by simp)).1

/-- C3: an existing publication whose remote citation total differs from the
stored total yields an updated report entry with the exact signed delta and
the distinct negative flag, and the stored value is overwritten with the
remote total (never clamped). -/
theorem reconcile_updated_delta (pubs : List Publication)
    (ms : List MatchedRecord) (p : Publication) (m : MatchedRecord)
    (hp : p ∈ pubs) (hm : m ∈ ms) (hid : m.remoteId = p.remoteId)
    (hne : m.citationCount ≠ p.citationCount)
    (hnd : (ms.map (·.remoteId)).Nodup) :
    (⟨p.remoteId, (m.citationCount : Int) - (p.citationCount : Int),
        decide (m.citationCount < p.citationCount)⟩ : UpdatedEntry) ∈
        (reconcile pubs ms).1.updated ∧
      { p with citationCount := m.citationCount } ∈ (reconcile pubs ms).2 := by
  have hfind : findRec ms p.remoteId = some m := by
    rw [← hid]
    exact findRec_self ms m hm hnd
  constructor
  · unfold reconcile
    simp only []
    refine List.mem_filterMap.mpr ⟨p, hp, ?_⟩
    unfold updateEntry
    rw [hfind]
    simp [hne]
  · unfold reconcile
    simp only []
    apply List.mem_append_left
    have : syncPub ms p = { p with citationCount := m.citationCount } := by
      unfold syncPub
      rw [hfind]
      simp [hne]
    exact this ▸ List.mem_map_of_mem (syncPub ms) hp

theorem updateEntry_syncPub (ms : List MatchedRecord) (p : Publication) :
    updateEntry ms (syncPub ms p) = none := by
  unfold updateEntry
  rw [syncPub_remoteId]
  cases h : findRec ms p.remoteId with
  | none => simp
  | some m =>
    have hcount : (syncPub ms p).citationCount = m.citationCount := by
      unfold syncPub
      rw [h]
      by_cases hc : m.citationCount = p.citationCount
      · simp [hc]
      · simp [hc]
    simp [hcount]

theorem updateEntry_mkPub (ms : List MatchedRecord) (m : MatchedRecord)
    (hm : m ∈ ms) (hnd : (ms.map (·.remoteId)).Nodup) :
    updateEntry ms (mkPub m) = none := by
  unfold updateEntry
  have hid : (mkPub m).remoteId = m.remoteId := rfl
  rw [hid, findRec_self ms m hm hnd]
  simp [mkPub]

theorem isMissing_mkPub (ms : List MatchedRecord) (m : MatchedRecord)
    (hm : m ∈ ms) (hnd : (ms.map (·.remoteId)).Nodup) :
    isMissing ms (mkPub m) = false := by
  unfold isMissing
  have hid : (mkPub m).remoteId = m.remoteId := rfl
  rw [hid, findRec_self ms m hm hnd]
  simp

theorem missing_map_sync (ms : List MatchedRecord) (pubs : List Publication) :
    ((pubs.map (syncPub ms)).filter (isMissing ms)).map (·.remoteId)
      = (pubs.filter (isMissing ms)).map (·.remoteId) := by
  induction pubs with
  | nil => rfl
  | cons p ps ih =>
    simp only [List.map_cons, List.filter_cons, isMissing_syncPub]
    cases h : isMissing ms p with
    | true => simp [syncPub_remoteId, ih]
    | false => simpa using ih

/-- C1 counterexample: a snapshot holding one live publication reconciled
twice against the same empty matched-record set reports that publication as
missing on the second pass as well — the second-pass report is not
all-empty as the claim states. -/
theorem reconcile_second_pass_cx :
    ¬ ((reconcile (reconcile [⟨"X", "T", 1, 3, false, false⟩] []).2 []).1.added
          = [] ∧
       (reconcile (reconcile [⟨"X", "T", 1, 3, false, false⟩] []).2 []).1.updated
          = [] ∧
       (reconcile (reconcile [⟨"X", "T", 1, 3, false, false⟩] []).2 []).1.missing
          = []) := by
  decide

/-- C1 amended: a second reconciliation pass with the same matched-record
set (identifiers distinct, as a record set keyed by remote identifier)
reports zero added entries, zero updated entries, and exactly the first
pass's missing set — so all three are zero whenever the first pass reported
nothing missing, in particular from an initially empty snapshot. -/
theorem reconcile_second_pass_amended (pubs : List Publication)
    (ms : List MatchedRecord) (hnd : (ms.map (·.remoteId)).Nodup) :
    (reconcile (reconcile pubs ms).2 ms).1.added = [] ∧
      (reconcile (reconcile pubs ms).2 ms).1.updated = [] ∧
      (reconcile (reconcile pubs ms).2 ms).1.missing
        = (reconcile pubs ms).1.missing := by
  have hid1 : ((pubs.map (syncPub ms)).map (·.remoteId))
      = pubs.map (·.remoteId) := by
    rw [List.map_map]
    exact List.map_congr_left fun p _ => syncPub_remoteId ms p
  have hid2 : ∀ l : List MatchedRecord,
      ((l.map mkPub).map (·.remoteId)) = l.map (·.remoteId) := by
    intro l
    rw [List.map_map]
    exact List.map_congr_left fun m _ => rfl
  refine ⟨?_, ?_, ?_⟩
  · show ((newRecs (reconcile pubs ms).2 ms).map (·.remoteId)) = []
    suffices h : newRecs (reconcile pubs ms).2 ms = [] by
      rw [h]; rfl
    unfold newRecs
    rw [List.filter_eq_nil_iff]
    intro m hm
    simp only [Bool.not_eq_true', Bool.not_eq_false]
    rw [List.elem_iff]
    show m.remoteId ∈ (reconcile pubs ms).2.map (·.remoteId)
    unfold reconcile
    simp only []
    rw [List.map_append, hid1, hid2]
    by_cases hc : m.remoteId ∈ pubs.map (·.remoteId)
    · exact List.mem_append_left _ hc
    · refine List.mem_append_right _ ?_
      refine List.mem_map.mpr ⟨m, ?_, rfl⟩
      unfold newRecs
      refine List.mem_filter.mpr ⟨hm, ?_⟩
      simp only [Bool.not_eq_true']
      rw [Bool.eq_false_iff]
      intro hcon
      exact hc (List.elem_iff.mp hcon)
  · show (reconcile pubs ms).2.filterMap (updateEntry ms) = []
    rw [List.filterMap_eq_nil_iff]
    intro q hq
    unfold reconcile at hq
    simp only [] at hq
    rcases List.mem_append.mp hq with hq | hq
    · rcases List.mem_map.mp hq with ⟨p, _, rfl⟩
      exact updateEntry_syncPub ms p
    · rcases List.mem_map.mp hq with ⟨m, hm, rfl⟩
      exact updateEntry_mkPub ms m (List.mem_of_mem_filter hm) hnd
  · show ((reconcile pubs ms).2.filter (isMissing ms)).map (·.remoteId)
        = (pubs.filter (isMissing ms)).map (·.remoteId)
    unfold reconcile
    simp only []
    rw [List.filter_append, List.map_append]
    have hnew : ((newRecs pubs ms).map mkPub).filter (isMissing ms) = [] := by
      rw [List.filter_eq_nil_iff]
      intro q hq
      rcases List.mem_map.mp hq with ⟨m, hm, rfl⟩
      rw [isMissing_mkPub ms m (List.mem_of_mem_filter hm) hnd]
      simp
    rw [hnew, missing_map_sync]
    simp

/-- C1 amended witness: one live publication and one fresh record. -/
theorem reconcile_second_pass_amended_witness :
    (([⟨"Y", "U", 2, 4⟩] : List MatchedRecord).map (·.remoteId)).Nodup ∧
      ((reconcile (reconcile [⟨"X", "T", 1, 3, false, false⟩]
          [⟨"Y", "U", 2, 4⟩]).2 [⟨"Y", "U", 2, 4⟩]).1.added = [] ∧
        (reconcile (reconcile [⟨"X", "T", 1, 3, false, false⟩]
          [⟨"Y", "U", 2, 4⟩]).2 [⟨"Y", "U", 2, 4⟩]).1.updated = [] ∧
        (reconcile (reconcile [⟨"X", "T", 1, 3, false, false⟩]
          [⟨"Y", "U", 2, 4⟩]).2 [⟨"Y", "U", 2, 4⟩]).1.missing
          = (reconcile [⟨"X", "T", 1, 3, false, false⟩]
              [⟨"Y", "U", 2, 4⟩]).1.missing) :=
  ⟨by decide,
    reconcile_second_pass_amended [⟨"X", "T", 1, 3, false, false⟩]
      [⟨"Y", "U", 2, 4⟩] (by decide)⟩

/-- C3 witness: a stored count of 7 corrected downward to 5 by the remote
source, with delta -2 and the negative flag set. -/
theorem reconcile_updated_delta_witness :
    (⟨"X", (-2 : Int), true⟩ : UpdatedEntry) ∈
      (reconcile [⟨"X", "T", 1, 7, false, false⟩]
        [⟨"X", "T", 1, 5⟩]).1.updated :=
  (reconcile_updated_delta [⟨"X", "T", 1, 7, false, false⟩] [⟨"X", "T", 1, 5⟩]
    ⟨"X", "T", 1, 7, false, false⟩ ⟨"X", "T", 1, 5⟩
    (by simp) (by simp) rfl (by decide) (by simp)).1

/-- Modelled from the spec: section 4.2, the operations that touch the
Rejected Candidate store: an interactive reject decision, an interactive
accept decision (which creates a Publication and leaves rejections alone),
and the explicit per-author clear operation. -/
inductive DeepOp where
  | rejectOp (a : Nat) (rid : String)
  | acceptOp (a : Nat) (rid : String)
  | clearOp (a : Nat)
deriving DecidableEq

/-- Modelled from the spec: section 4.2 — rejecting writes a Rejected
Candidate row once (re-rejecting is a no-op), accepting never touches the
store, and clearing deletes all rows of the given author. -/
def applyDeepOp (s : List (Nat × String)) : DeepOp → List (Nat × String)
  | DeepOp.rejectOp a rid => if (a, rid) ∈ s then s else (a, rid) :: s
  | DeepOp.acceptOp _ _ => s
  | DeepOp.clearOp a => s.filter fun pr => pr.1 ≠ a

/-- Folds a sequence of resolver operations over the rejected-candidate
store. -/
def runDeepOps (s : List (Nat × String)) (ops : List DeepOp) :
    List (Nat × String) :=
  ops.foldl applyDeepOp s

/-- Modelled from the spec: section 4.2 — a deep pass offers exactly the
candidate records not memoized as rejected for this author. -/
def offerCands (s : List (Nat × String)) (a : Nat) (cands : List String) :
    List String :=
  cands.filter fun rid => !((a, rid) ∈ s : Bool)

theorem applyDeepOp_preserves (s : List (Nat × String)) (a : Nat)
    (rid : String) (op : DeepOp) (hop : op ≠ DeepOp.clearOp a)
    (h : (a, rid) ∈ s) : (a, rid) ∈ applyDeepOp s op := by
  cases op with
  | rejectOp b r =>
    unfold applyDeepOp
    by_cases hb : (b, r) ∈ s
    · simpa [hb] using h
    · simp only [if_neg hb]
      exact List.mem_cons_of_mem _ h
  | acceptOp b r => exact h
  | clearOp b =>
    unfold applyDeepOp
    refine List.mem_filter.mpr ⟨h, ?_⟩
    have hba : b ≠ a := fun hba => hop (by rw [hba])
    simp only [ne_eq, decide_not]
    simp
    exact fun hab => hba hab.symm

theorem runDeepOps_preserves (ops : List DeepOp) (s : List (Nat × String))
    (a : Nat) (rid : String) (hops : ∀ op ∈ ops, op ≠ DeepOp.clearOp a)
    (h : (a, rid) ∈ s) : (a, rid) ∈ runDeepOps s ops := by
  induction ops generalizing s with
  | nil => exact h
  | cons op rest ih =>
    exact ih (applyDeepOp s op) (fun o ho => hops o (List.mem_cons_of_mem _ ho))
      (applyDeepOp_preserves s a rid op (hops op (List.mem_cons_self _ _)) h)

/-- C4: once the pair (author, remote identifier) is memoized as rejected, no
later deep pass whose operations contain no clear for that author ever
offers that record to that author again; clearing the author deletes the
pair and makes the record eligible again; re-rejecting an already rejected
pair is a no-op on the store. -/
theorem rejected_never_reoffered (s : List (Nat × String)) (a : Nat)
    (rid : String) (ops : List DeepOp) (cands : List String)
    (h : (a, rid) ∈ s) (hops : ∀ op ∈ ops, op ≠ DeepOp.clearOp a) :
    rid ∉ offerCands (runDeepOps s ops) a cands ∧
      (a, rid) ∉ applyDeepOp s (DeepOp.clearOp a) ∧
      applyDeepOp s (DeepOp.rejectOp a rid) = s := by
  refine ⟨?_, ?_, ?_⟩
  · intro hmem
    have := (List.mem_filter.mp hmem).2
    have hrej := runDeepOps_preserves ops s a rid hops h
    simp [hrej] at this
  · intro hmem
    have := (List.mem_filter.mp hmem).2
    simp at this
  · unfold applyDeepOp
    simp [h]

/-- C4 witness: a rejected pair stays unoffered across a pass holding an
unrelated clear and an accept. -/
theorem rejected_never_reoffered_witness :
    ((1, "B2020") ∈ [((1 : Nat), "B2020")] ∧
        ∀ op ∈ [DeepOp.clearOp 2, DeepOp.acceptOp 1 "B2021"],
          op ≠ DeepOp.clearOp 1) ∧
      "B2020" ∉ offerCands
        (runDeepOps [((1 : Nat), "B2020")]
          [DeepOp.clearOp 2, DeepOp.acceptOp 1 "B2021"]) 1
        ["B2020", "B2021"] :=
  ⟨⟨by decide, by decide⟩,
    (rejected_never_reoffered [((1 : Nat), "B2020")] 1 "B2020"
      [DeepOp.clearOp 2, DeepOp.acceptOp 1 "B2021"] ["B2020", "B2021"]
      (by decide) (by decide)).1⟩

/-- Modelled from the spec: section 4.4's linear scan over the descending
citation counts — advance while the next count still covers the next rank. -/
def scanH : List Nat → Nat → Nat
  | [], i => i
  | c :: rest, i => if i + 1 ≤ c then scanH rest (i + 1) else i

/-- Modelled from the spec: section 4.4, the H-index — sort the citation
counts in descending order and scan linearly. -/
def hIndex (counts : List Nat) : Nat :=
  scanH (List.insertionSort (· ≥ ·) counts) 0

/-- Modelled from the spec: section 4.4, the Metrics Calculator's H-index of
an author's non-ignored publications. -/
def hIndexOf (pubs : List Publication) : Nat :=
  hIndex ((pubs.filter fun p => !p.ignored).map (·.citationCount))

theorem scanH_nil (i : Nat) : scanH [] i = i := rfl

theorem scanH_cons (c : Nat) (rest : List Nat) (i : Nat) :
    scanH (c :: rest) i = if i + 1 ≤ c then scanH rest (i + 1) else i := rfl

theorem scanH_ge (l : List Nat) (i : Nat) : i ≤ scanH l i := by
  induction l generalizing i with
  | nil => exact Nat.le_refl i
  | cons c rest ih =>
    rw [scanH_cons]
    by_cases h : i + 1 ≤ c
    · rw [if_pos h]
      exact Nat.le_trans (Nat.le_succ i) (ih (i + 1))
    · rw [if_neg h]

theorem scanH_le_of_bound (l : List Nat) (i c : Nat)
    (hl : ∀ x ∈ l, x ≤ c) (hi : i ≤ c) : scanH l i ≤ c := by
  induction l generalizing i with
  | nil => exact hi
  | cons x rest ih =>
    rw [scanH_cons]
    by_cases h : i + 1 ≤ x
    · rw [if_pos h]
      exact ih (i + 1) (fun y hy => hl y (List.mem_cons_of_mem _ hy))
        (Nat.le_trans h (hl x (List.mem_cons_self _ _)))
    · rw [if_neg h]
      exact hi

theorem scanH_count (l : List Nat) (i : Nat) (hs : l.Sorted (· ≥ ·)) :
    scanH l i - i ≤ l.countP fun x => scanH l i ≤ x := by
  induction l generalizing i with
  | nil => simp [scanH]
  | cons c rest ih =>
    rw [List.sorted_cons] at hs
    by_cases h : i + 1 ≤ c
    · have hred : scanH (c :: rest) i = scanH rest (i + 1) := by
        rw [scanH_cons, if_pos h]
      have hbound : scanH rest (i + 1) ≤ c :=
        scanH_le_of_bound rest (i + 1) c (fun y hy => hs.1 y hy) h
      rw [hred, List.countP_cons]
      have hcount := ih (i + 1) hs.2
      rw [if_pos (by exact decide_eq_true hbound)]
      omega
    · have hred : scanH (c :: rest) i = i := by
        rw [scanH_cons, if_neg h]
      rw [hred]
      omega

theorem scanH_greatest (l : List Nat) (i h : Nat) (hs : l.Sorted (· ≥ ·))
    (hc : h - i ≤ l.countP fun x => h ≤ x) : h ≤ scanH l i := by
  induction l generalizing i with
  | nil =>
    simp only [List.countP_nil, Nat.le_zero] at hc
    have : h ≤ i := by omega
    exact Nat.le_trans this (scanH_ge [] i)
  | cons c rest ih =>
    rw [List.sorted_cons] at hs
    by_cases hhi : h ≤ i
    · exact Nat.le_trans hhi (scanH_ge _ i)
    · have hpos : 0 < (c :: rest).countP fun x => h ≤ x := by omega
      have hex := List.countP_pos_iff.mp hpos
      have hhc : h ≤ c := by
        rcases hex with ⟨x, hx, hpx⟩
        have hpx' : h ≤ x := of_decide_eq_true hpx
        rcases List.mem_cons.mp hx with rfl | hx'
        · exact hpx'
        · exact Nat.le_trans hpx' (hs.1 x hx')
      have hstep : i + 1 ≤ c := by omega
      have hred : scanH (c :: rest) i = scanH rest (i + 1) := by
        rw [scanH_cons, if_pos hstep]
      rw [hred]
      refine ih (i + 1) hs.2 ?_
      rw [List.countP_cons, if_pos (decide_eq_true hhc)] at hc
      omega

theorem hIndex_le_count (cs : List Nat) :
    hIndex cs ≤ cs.countP fun c => hIndex cs ≤ c := by
  have hperm := List.perm_insertionSort (fun a b : Nat => a ≥ b) cs
  have := scanH_count (List.insertionSort (· ≥ ·) cs) 0
    (List.sorted_insertionSort _ cs)
  rw [hperm.countP_eq] at this
  simpa [hIndex] using this

theorem le_hIndex (cs : List Nat) (h : Nat)
    (hc : h ≤ cs.countP fun c => h ≤ c) : h ≤ hIndex cs := by
  have hperm := List.perm_insertionSort (fun a b : Nat => a ≥ b) cs
  refine scanH_greatest (List.insertionSort (· ≥ ·) cs) 0 h
    (List.sorted_insertionSort _ cs) ?_
  rw [hperm.countP_eq]
  omega

/-- C7: for a non-empty list of non-ignored publications the Metrics
Calculator's H-index is the largest h such that at least h publications
have citation count at least h, and the spec's two worked examples hold. -/
theorem hIndexOf_largest (pubs : List Publication) (_hne : pubs ≠ [])
    (hni : ∀ p ∈ pubs, p.ignored = false) :
    hIndexOf pubs ≤
        (pubs.map (·.citationCount)).countP (fun c => hIndexOf pubs ≤ c) ∧
      (∀ h, h ≤ (pubs.map (·.citationCount)).countP (fun c => h ≤ c) →
        h ≤ hIndexOf pubs) ∧
      hIndex [10, 8, 5, 4, 3] = 4 ∧ hIndex [25, 8, 5, 3, 3] = 3 := by
  have hfil : pubs.filter (fun p => !p.ignored) = pubs := by
    rw [List.filter_eq_self]
    intro p hp
    rw [hni p hp]
    rfl
  have hof : hIndexOf pubs = hIndex (pubs.map (·.citationCount)) := by
    unfold hIndexOf
    rw [hfil]
  have hcnt : ∀ h : Nat, (pubs.map (·.citationCount)).countP (fun c => h ≤ c)
      = (pubs.map (·.citationCount)).countP (fun c => h ≤ c) := fun _ => rfl
  refine ⟨?_, ?_, by decide, by decide⟩
  · rw [hof]
    exact hIndex_le_count (pubs.map (·.citationCount))
  · intro h hh
    rw [hof]
    exact le_hIndex (pubs.map (·.citationCount)) h hh

/-- C7 witness: the H-index of the spec's first example list of
publications evaluates to 4 through the theorem. -/
theorem hIndexOf_largest_witness :
    (([⟨"A", "t", 1, 10, false, false⟩, ⟨"B", "t", 1, 8, false, false⟩,
        ⟨"C", "t", 1, 5, false, false⟩, ⟨"D", "t", 1, 4, false, false⟩,
        ⟨"E", "t", 1, 3, false, false⟩] : List Publication) ≠ [] ∧
      hIndex [10, 8, 5, 4, 3] = 4) :=
  ⟨by simp,
    (hIndexOf_largest
      [⟨"A", "t", 1, 10, false, false⟩, ⟨"B", "t", 1, 8, false, false⟩,
        ⟨"C", "t", 1, 5, false, false⟩, ⟨"D", "t", 1, 4, false, false⟩,
        ⟨"E", "t", 1, 3, false, false⟩]
      (by simp) (by decide)).2.2.1⟩

/-- Modelled from the spec: section 6, one citing paper of a tracked
publication — its remote identifier and publication date (in days). -/
structure CitingPaper where
  remoteId : String
  pubDate : Nat
deriving DecidableEq

/-- Whether a citing paper was published within the last `window` days
before `today`. -/
def inWindow (today window : Nat) (c : CitingPaper) : Bool :=
  today ≤ c.pubDate + window && c.pubDate ≤ today

/-- Modelled from the source README (src/README.md, Smart Citation Metrics:
"Recent citations are based on citing papers published in the last 90
days"): the recent-citation figure of a publication is the number of its
citing papers published within the recency window, computed from the current
citing-paper list alone. -/
def recentCitations (citing : List CitingPaper) (today window : Nat) : Nat :=
  match citing with
  | [] => 0
  | c :: rest =>
    (if inWindow today window c then 1 else 0) +
      recentCitations rest today window

/-- The claim's competing reading of the recent-citation figure, stated for
refutation: the citation-count delta computed from the last two persisted
reconciliation snapshots. -/
def recentDeltaClaim (prevTotal currTotal : Nat) : Int :=
  (currTotal : Int) - (prevTotal : Int)

/-- C8 counterexample: one citing paper published 30 days before today and
already counted in both of the last two reconciliation snapshots (stored
totals 1 and 1).  The README figure counts it (1), the two-snapshot delta is
0 — the recent-citation figure is not the snapshot delta, and it is computed
from the single current citing-paper list. -/
theorem recentCitations_not_snapshot_delta :
    (recentCitations [⟨"C1", 100⟩] 130 90 : Int) ≠ recentDeltaClaim 1 1 := by
  decide

/-- C8 amended: the recent-citation figure equals the count of citing papers
published within the recency window and is bounded by the number of citing
papers — it is a function of the current citing-paper list alone (single
fetch), not of the last two reconciliation snapshots. -/
theorem recentCitations_counts_window (citing : List CitingPaper)
    (today window : Nat) :
    recentCitations citing today window
        = citing.countP (inWindow today window) ∧
      recentCitations citing today window ≤ citing.length := by
  induction citing with
  | nil => exact ⟨rfl, Nat.le_refl 0⟩
  | cons c rest ih =>
    constructor
    · show (if inWindow today window c then 1 else 0)
          + recentCitations rest today window = _
      rw [List.countP_cons, ih.1]
      by_cases h : inWindow today window c
      · rw [if_pos h]
        omega
      · rw [if_neg h]
        omega
    · show (if inWindow today window c then 1 else 0)
          + recentCitations rest today window ≤ rest.length + 1
      have := ih.2
      by_cases h : inWindow today window c
      · rw [if_pos h]
        omega
      · rw [if_neg h]
        omega

/-- A matched record formed from a remote record and an inferred byline
position. -/
def toMatched (r : RemoteRecord) (pos : Nat) : MatchedRecord :=
  ⟨r.remoteId, r.title, pos, r.citationCount⟩

/-- Modelled from the spec: sections 4.1 and 4.3 — the records of the pass
the Author Matcher classifies as strong matches, with their positions. -/
def strongMatches (a : AuthorT) (deep : Bool)
    (records : List RemoteRecord) : List MatchedRecord :=
  records.filterMap fun r =>
    match matchAuthor a deep r with
    | (MatchClass.strongMatch, pos) => some (toMatched r (pos.getD 1))
    | _ => none

/-- Modelled from the spec: sections 4.1 and 4.2 — the records of the pass
the Author Matcher classifies as ambiguous candidates, with positions. -/
def candRecords (a : AuthorT) (deep : Bool)
    (records : List RemoteRecord) : List (RemoteRecord × Nat) :=
  records.filterMap fun r =>
    match matchAuthor a deep r with
    | (MatchClass.candidate, pos) => some (r, pos.getD 1)
    | _ => none

/-- Modelled from the spec: section 4.2 — the candidates actually offered
through the Deep-Search path: classified candidates minus the memoized
rejections of this author. -/
def offerList (a : AuthorT) (deep : Bool) (rejected : List (Nat × String))
    (records : List RemoteRecord) : List (RemoteRecord × Nat) :=
  (candRecords a deep records).filter fun pr =>
    !((a.authorId, pr.1.remoteId) ∈ rejected : Bool)

/-- Remote identifiers of the offered candidates. -/
def offerIds (a : AuthorT) (deep : Bool) (rejected : List (Nat × String))
    (records : List RemoteRecord) : List String :=
  (offerList a deep rejected records).map fun pr => pr.1.remoteId

/-- Modelled from the spec: sections 4.2 and 4.3 — the matched set of the
pass: strong matches together with the offered candidates the interactive
decision accepted. -/
def matchedSet (a : AuthorT) (deep : Bool) (rejected : List (Nat × String))
    (dec : String → Bool) (records : List RemoteRecord) :
    List MatchedRecord :=
  strongMatches a deep records ++
    ((offerList a deep rejected records).filter fun pr =>
      dec pr.1.remoteId).map fun pr => toMatched pr.1 pr.2

/-- Result of one full check pass: the offered candidate identifiers, the
matched set, the change report, and the updated snapshot. -/
structure PassResult where
  offers : List String
  matched : List MatchedRecord
  report : ChangeReport
  snapshot : List Publication
deriving DecidableEq

/-- Modelled from the spec: section 2's control flow with section 4.3's edge
case — match the records, resolve candidates through the Deep-Search path,
reconcile, and in deep mode keep records re-offered through the Deep-Search
path out of the missing set (they are routed to confirmation instead of
removal). -/
def runPass (a : AuthorT) (deep : Bool) (rejected : List (Nat × String))
    (dec : String → Bool) (pubs : List Publication)
    (records : List RemoteRecord) : PassResult :=
  { offers := offerIds a deep rejected records,
    matched := matchedSet a deep rejected dec records,
    report :=
      ⟨(reconcile pubs (matchedSet a deep rejected dec records)).1.added,
        (reconcile pubs (matchedSet a deep rejected dec records)).1.updated,
        if deep then
          (reconcile pubs (matchedSet a deep rejected dec records)).1.missing.filter
            fun i => !((offerIds a deep rejected records).contains i)
        else (reconcile pubs (matchedSet a deep rejected dec records)).1.missing⟩,
    snapshot := (reconcile pubs (matchedSet a deep rejected dec records)).2 }

theorem matchAuthor_shallow_no_candidate (a : AuthorT) (r : RemoteRecord) :
    (matchAuthor a false r).1 ≠ MatchClass.candidate := by
  unfold matchAuthor
  cases horc : orcidHit a r with
  | some i => simp
  | none =>
    simp only []
    cases hb : firstHit a r with
    | true => simp
    | false =>
      simp only [Bool.false_eq_true, if_false]
      cases hf : firstIdx (fun e => tokenMatch a e.name) r.authorList with
      | none => simp
      | some j => simp

theorem matchAuthor_shallow_of_candidate (a : AuthorT) (r : RemoteRecord)
    (h : (matchAuthor a true r).1 = MatchClass.candidate) :
    matchAuthor a false r = (MatchClass.noMatch, none) := by
  unfold matchAuthor at h ⊢
  cases horc : orcidHit a r with
  | some i =>
    rw [horc] at h
    simp at h
  | none =>
    rw [horc] at h
    simp only [] at h ⊢
    cases hb : firstHit a r with
    | true =>
      rw [hb] at h
      simp at h
    | false =>
      rw [hb] at h
      simp only [Bool.false_eq_true, if_false] at h ⊢
      cases hf : firstIdx (fun e => tokenMatch a e.name) r.authorList with
      | none => simp_all
      | some j => simp

theorem candRecords_shallow (a : AuthorT) (records : List RemoteRecord) :
    candRecords a false records = [] := by
  unfold candRecords
  rw [List.filterMap_eq_nil_iff]
  intro r _
  rcases hM : matchAuthor a false r with ⟨c, pos⟩
  have hnc := matchAuthor_shallow_no_candidate a r
  rw [hM] at hnc
  cases c with
  | strongMatch => rfl
  | noMatch => rfl
  | candidate => exact absurd rfl hnc

/-- C9: a publication matched strongly in an earlier pass whose record now
classifies only as an ambiguous candidate is, in deep mode, re-offered
through the Deep-Search path and kept out of the missing report; with deep
mode inactive the same publication is reported missing under rule 4
(subject to removal confirmation) instead of being silently retained. -/
theorem downgraded_match_edge (a : AuthorT) (rejected : List (Nat × String))
    (dec : String → Bool) (pubs : List Publication)
    (records : List RemoteRecord) (p : Publication) (r : RemoteRecord)
    (hp : p ∈ pubs) (hig : p.ignored = false) (hts : p.tombstoned = false)
    (hr : r ∈ records) (hid : r.remoteId = p.remoteId)
    (hcand : (matchAuthor a true r).1 = MatchClass.candidate)
    (hrej : (a.authorId, r.remoteId) ∉ rejected)
    (hnd : (records.map (·.remoteId)).Nodup) :
    p.remoteId ∈ (runPass a true rejected dec pubs records).offers ∧
      p.remoteId ∉ (runPass a true rejected dec pubs records).report.missing ∧
      p.remoteId ∈ (runPass a false rejected dec pubs records).report.missing := by
  rcases hM : matchAuthor a true r with ⟨c, pos⟩
  rw [hM] at hcand
  simp only [] at hcand
  subst hcand
  have hoffer : p.remoteId ∈ offerIds a true rejected records := by
    unfold offerIds
    refine List.mem_map.mpr ⟨(r, pos.getD 1), ?_, hid⟩
    unfold offerList
    refine List.mem_filter.mpr ⟨?_, ?_⟩
    · unfold candRecords
      refine List.mem_filterMap.mpr ⟨r, hr, ?_⟩
      rw [hM]
    · simp [hrej]
  refine ⟨hoffer, ?_, ?_⟩
  · have hEq : (runPass a true rejected dec pubs records).report.missing
        = (reconcile pubs (matchedSet a true rejected dec records)).1.missing.filter
            (fun i => !((offerIds a true rejected records).contains i)) := rfl
    intro hmem
    rw [hEq] at hmem
    have hcond := (List.mem_filter.mp hmem).2
    have hcontains : (offerIds a true rejected records).contains p.remoteId
        = true := List.elem_iff.mpr hoffer
    rw [hcontains] at hcond
    exact absurd hcond (by decide)
  · have hshallow := matchAuthor_shallow_of_candidate a r (by rw [hM])
    have hempty : offerList a false rejected records = [] := by
      unfold offerList
      rw [candRecords_shallow]
      rfl
    have habs : ∀ m ∈ matchedSet a false rejected dec records,
        m.remoteId ≠ p.remoteId := by
      intro m hm
      unfold matchedSet at hm
      rw [hempty] at hm
      simp only [List.filter_nil, List.map_nil, List.append_nil] at hm
      unfold strongMatches at hm
      rcases List.mem_filterMap.mp hm with ⟨q, hq, heq⟩
      rcases hMq : matchAuthor a false q with ⟨cq, posq⟩
      rw [hMq] at heq
      cases cq with
      | candidate => cases heq
      | noMatch => cases heq
      | strongMatch =>
        have hmid : m.remoteId = q.remoteId := by
          cases heq
          rfl
        intro hcon
        have hqr : q = r := by
          refine List.inj_on_of_nodup_map hnd hq hr ?_
          show q.remoteId = r.remoteId
          rw [← hmid, hcon, ← hid]
        rw [hqr, hshallow] at hMq
        cases hMq
    have hfind : findRec (matchedSet a false rejected dec records) p.remoteId
        = none := findRec_eq_none _ _ habs
    have hmem := mem_missing_of_absent pubs
      (matchedSet a false rejected dec records) p hp hig hts hfind
    have hEq2 : (runPass a false rejected dec pubs records).report.missing
        = (reconcile pubs (matchedSet a false rejected dec records)).1.missing :=
      rfl
    rw [hEq2]
    exact hmem

/-- C9 witness: an author with no ORCID, a record where the author appears
second in the byline, and a stored publication for that record. -/
theorem downgraded_match_edge_witness :
    ((matchAuthor ⟨1, "Jane", "Doe", none⟩ true
        ⟨"B1", "T", [⟨"Smith, A.", none⟩, ⟨"Doe, J.", none⟩], 0, 3⟩).1
          = MatchClass.candidate) ∧
      (⟨"B1", "T", 1, 3, false, false⟩ : Publication).remoteId ∈
        (runPass ⟨1, "Jane", "Doe", none⟩ true [] (fun _ => false)
          [⟨"B1", "T", 1, 3, false, false⟩]
          [⟨"B1", "T", [⟨"Smith, A.", none⟩, ⟨"Doe, J.", none⟩], 0, 3⟩]).offers :=
  ⟨by decide,
    (downgraded_match_edge ⟨1, "Jane", "Doe", none⟩ [] (fun _ => false)
      [⟨"B1", "T", 1, 3, false, false⟩]
      [⟨"B1", "T", [⟨"Smith, A.", none⟩, ⟨"Doe, J.", none⟩], 0, 3⟩]
      ⟨"B1", "T", 1, 3, false, false⟩
      ⟨"B1", "T", [⟨"Smith, A.", none⟩, ⟨"Doe, J.", none⟩], 0, 3⟩
      (by simp) rfl rfl (by simp) rfl (by decide) (by simp) (by simp)).1⟩

/-- Modelled from the spec: section 6's persisted state layout — authors,
author-keyed publications (carrying citation counters and ignore flags),
rejected candidates, and the credential key-value area. -/
structure TrackerDB where
  authors : List AuthorT
  pubs : List (Nat × Publication)
  rejected : List (Nat × String)
  token : Option String
deriving DecidableEq

/-- Modelled from the source README (src/README.md, Command Overview): the
tracker commands the persisted state reacts to, including the one-off
search. -/
inductive Cmd where
  | addAuthorCmd (first last : String) (orcid : Option String)
  | removeAuthorCmd (aid : Nat)
  | addTokenCmd (tok : String)
  | ignoreCmd (aid : Nat) (rid : String) (reason : String)
  | clearRejectedCmd (aid : Nat)
  | searchCmd (first last : String) (orcid : Option String)
      (firstOnly : Bool) (maxRows : Nat)
deriving DecidableEq

/-- Modelled from the source README (src/README.md, Search Without
Tracking): the one-off search results — remote records matched for an
ad-hoc author, optionally restricted to first-author papers, truncated to
the row limit. -/
def searchResults (oracle : List RemoteRecord) (a : AuthorT)
    (firstOnly : Bool) (maxRows : Nat) : List RemoteRecord :=
  (if firstOnly then
    oracle.filter fun r =>
      decide ((matchAuthor a false r).1 = MatchClass.strongMatch)
  else oracle).take maxRows

/-- Modelled from the spec: section 6's CLI surface and the source README —
one tracker command applied to the persisted state, returning the new state
and the printed identifiers.  Search queries the remote oracle and renders
results without touching the state. -/
def runCmd (oracle : List RemoteRecord) (c : Cmd) (db : TrackerDB) :
    TrackerDB × List String :=
  match c with
  | Cmd.addAuthorCmd f l o =>
    ({ db with authors :=
        db.authors ++ [⟨(db.authors.map (·.authorId)).foldr Nat.max 0 + 1,
          f, l, o⟩] }, [])
  | Cmd.removeAuthorCmd aid =>
    ({ db with
        authors := db.authors.filter fun a => a.authorId ≠ aid,
        pubs := db.pubs.filter fun pr => pr.1 ≠ aid,
        rejected := db.rejected.filter fun pr => pr.1 ≠ aid }, [])
  | Cmd.addTokenCmd t => ({ db with token := some t }, [])
  | Cmd.ignoreCmd aid rid _reason =>
    ({ db with pubs := db.pubs.map fun pr =>
        if pr.1 = aid && pr.2.remoteId == rid then
          (pr.1, { pr.2 with ignored := true })
        else pr }, [])
  | Cmd.clearRejectedCmd aid =>
    ({ db with rejected := db.rejected.filter fun pr => pr.1 ≠ aid }, [])
  | Cmd.searchCmd f l o fo mr =>
    (db, (searchResults oracle ⟨0, f, l, o⟩ fo mr).map (·.remoteId))

/-- C10: the one-off search command is read-only with respect to tracking
state — for every oracle, every search argument and every database state,
the state after the command equals the state before it, component by
component: authors, publications (with citation counters and ignore
markers), rejected candidates, and the stored token. -/
theorem search_readonly (oracle : List RemoteRecord) (f l : String)
    (o : Option String) (fo : Bool) (mr : Nat) (db : TrackerDB) :
    (runCmd oracle (Cmd.searchCmd f l o fo mr) db).1 = db ∧
      (runCmd oracle (Cmd.searchCmd f l o fo mr) db).1.authors = db.authors ∧
      (runCmd oracle (Cmd.searchCmd f l o fo mr) db).1.pubs = db.pubs ∧
      (runCmd oracle (Cmd.searchCmd f l o fo mr) db).1.rejected
        = db.rejected ∧
      (runCmd oracle (Cmd.searchCmd f l o fo mr) db).1.token = db.token :=
  ⟨rfl, rfl, rfl, rfl, rfl⟩

end MyADS
